import Mathlib

/-!
A shallow embedding of `src/store.ts`, the permissioned, colon-path-addressed
hierarchical key/value store of this repository, together with proofs about
its read/write/permission algorithms.

Modelling conventions:
* JS numbers are modelled as `Int` (the repository only ever handles integral
  JSON numbers; floats and NaN are out of scope).
* A zero-argument producer function is modelled as `SValue.producer r`, a pure
  thunk that returns `r` each time it is invoked (producers in the source are
  required to be side-effect-safe for repeated calls).
* A `Store` instance carries its locally written entry map `_data`, its
  permission override map `_permissions` (the prototype chain of type-level
  and instance-level overrides flattened into one association list, earlier
  entries shadowing later ones), its `defaultPolicy`, and the statically
  declared instance fields of a subclass (sub-stores, producers, or plain
  values), which JS property access on the instance can see.
* JS property access on a store instance (`store[key]`) sees the own
  properties `_data`, `_permissions`, `defaultPolicy` and the declared fields.
  Prototype methods (`read`, `write`, ...) are not part of the data model and
  are not modelled.
* Errors: `Err.accessDenied` is the `throw new Error("Access denied")` of the
  source; `Err.typeError` is a JS `TypeError` (calling a method of a
  non-object, or `Object.entries(null)`).
* Mutating methods are modelled by returning the post-state paired with
  `Option Err`; a thrown error leaves all mutations applied before the throw
  committed, exactly as in JS.
-/

namespace TAStore

/-- JSON primitive values: string, number, boolean, null. -/
inductive Prim where
  | str (s : String)
  | int (n : Int)
  | bool (b : Bool)
  | null
deriving DecidableEq, Repr

/-- The `Permission` string union of the source: "r" | "w" | "rw" | "none". -/
inductive Perm where
  | r
  | w
  | rw
  | none
deriving DecidableEq, Repr

/-- The two kinds of runtime error the store's methods can raise. -/
inductive Err where
  | accessDenied
  | typeError
deriving DecidableEq, Repr

mutual
/-- A JS value that can appear as a `StoreValue`: a primitive, `undefined`,
a plain object, an array, a nested `Store` instance, or a producer function
(a pure thunk returning `r` on each invocation). -/
inductive SValue where
  | prim (p : Prim)
  | undef
  | obj (o : Fields)
  | arr (a : Elems)
  | store (s : Store)
  | producer (r : SValue)

/-- The elements of a JS array value. -/
inductive Elems where
  | nil
  | cons (v : SValue) (rest : Elems)

/-- The key/value pairs of a JS object, in property insertion order. -/
inductive Fields where
  | nil
  | cons (k : String) (v : SValue) (rest : Fields)

/-- A `Store` instance: `_data` (locally written entries), `_permissions`
(override map, prototype chain flattened), `defaultPolicy`, and the statically
declared instance fields of its (sub)class. -/
inductive Store where
  | mk (data : Fields) (perms : List (String × Perm)) (defaultPolicy : Perm)
      (fields : Fields)
end

deriving instance DecidableEq for SValue

def Store.data : Store → Fields
  | .mk d _ _ _ => d

def Store.perms : Store → List (String × Perm)
  | .mk _ p _ _ => p

def Store.defaultPolicy : Store → Perm
  | .mk _ _ dp _ => dp

def Store.fields : Store → Fields
  | .mk _ _ _ f => f

/-- The string form of a permission, as it appears in the source. -/
def Perm.toStr : Perm → String
  | .r => "r"
  | .w => "w"
  | .rw => "rw"
  | .none => "none"

/-- permission.includes("r") for each of the four permission strings. -/
def Perm.includesR : Perm → Bool
  | .r => true
  | .rw => true
  | _ => false

/-- permission.includes("w") for each of the four permission strings. -/
def Perm.includesW : Perm → Bool
  | .w => true
  | .rw => true
  | _ => false

/-- Property lookup in a JS object: first (and in a real JS object, only)
binding of the key. -/
def Fields.lookup : Fields → String → Option SValue
  | .nil, _ => Option.none
  | .cons k v rest, key => if key = k then some v else rest.lookup key

/-- JS property assignment `o[key] = v`: replace the value in place if the
key is present, otherwise append the new binding. -/
def Fields.insert : Fields → String → SValue → Fields
  | .nil, key, v => .cons key v .nil
  | .cons k w rest, key, v =>
      if key = k then .cons k v rest else .cons k w (rest.insert key v)

/-- JS object spread `{...base, ...extra}`: assign every binding of `extra`
into `base`, left to right. -/
def Fields.spread : Fields → Fields → Fields
  | base, .nil => base
  | base, .cons k v rest => Fields.spread (base.insert k v) rest

/-- Replace the value bound to `key` (first binding) without moving it;
no-op when the key is absent. -/
def Fields.updateVal : Fields → String → SValue → Fields
  | .nil, _, _ => .nil
  | .cons k w rest, key, v =>
      if key = k then .cons k v rest else .cons k w (rest.updateVal key v)

def Elems.length : Elems → Nat
  | .nil => 0
  | .cons _ rest => 1 + rest.length

def Elems.getIdx : Elems → Nat → Option SValue
  | .nil, _ => Option.none
  | .cons v _, 0 => some v
  | .cons _ rest, n + 1 => rest.getIdx n

/-- Lookup in the `_permissions` map (`_permissions[key]`). -/
def plookup : List (String × Perm) → String → Option Perm
  | [], _ => Option.none
  | (k, p) :: rest, key => if key = k then some p else plookup rest key

/-- The `_permissions` object as seen by JS property enumeration / spread:
each override as a permission string. -/
def permsToFields : List (String × Perm) → Fields
  | [] => .nil
  | (k, p) :: rest => .cons k (.prim (.str p.toStr)) (permsToFields rest)

/-- JS property access `store[key]` on a `Store` instance: the own properties
`_data`, `_permissions`, `defaultPolicy` and the statically declared fields.
Prototype methods are not modelled. -/
def Store.storeGet (s : Store) (k : String) : Option SValue :=
  if k = "_data" then some (.obj s.data)
  else if k = "_permissions" then some (.obj (permsToFields s.perms))
  else if k = "defaultPolicy" then some (.prim (.str s.defaultPolicy.toStr))
  else s.fields.lookup k

/-- The own enumerable properties of a store instance in insertion order,
as produced by `{...this}` or `Object.entries(store)`. -/
def Store.ownProps (s : Store) : Fields :=
  .cons "_data" (.obj s.data)
    (.cons "_permissions" (.obj (permsToFields s.perms))
      (.cons "defaultPolicy" (.prim (.str s.defaultPolicy.toStr)) s.fields))

/-- The merged view `{...this, ...this._data}` used by `_getPropertyByPath`:
locally written entries take precedence over the instance's own properties. -/
def Store.mergedView (s : Store) : Fields := Fields.spread s.ownProps s.data

/-- The merged view `{...this._data, ...this}` used by `entries()`: the
instance's own properties take precedence over locally written entries. -/
def Store.entriesView (s : Store) : Fields := Fields.spread s.data s.ownProps

/-- Lookup in the `{...this, ...this._data}` view: `_data` first, then the
instance's own properties. -/
def Store.mvLookup (s : Store) (k : String) : Option SValue :=
  match s.data.lookup k with
  | some v => some v
  | Option.none => s.storeGet k

/-- JS assignment `this._data[key] = v`. -/
def Store.setData : Store → String → SValue → Store
  | .mk d p dp f, k, v => .mk (d.insert k v) p dp f

/-- In-place mutation of the nested store bound to the statically declared
field `k` (JS mutates the shared object; the pure model rebinds the field). -/
def Store.updateField : Store → String → Store → Store
  | .mk d p dp f, k, c => .mk d p dp (f.updateVal k (.store c))

/-- String.prototype.split(":"): always at least one piece, empty pieces for
leading/trailing/adjacent separators. -/
def splitColonAux : List Char → List String
  | [] => [""]
  | c :: rest =>
      let r := splitColonAux rest
      if c = ':' then "" :: r
      else
        match r with
        | [] => [String.mk [c]]
        | h :: t => (String.mk (c :: h.data)) :: t

def splitColon (s : String) : List String := splitColonAux s.data

/-- keys[0] after `path.split(":")` (never absent: split yields ≥ 1 piece). -/
def headKey (path : String) : String := (splitColon path).headD ""

/-- The JS `keys.shift() || keys[0]` of `_getPermissions`: the first segment,
or, when it is the empty string (falsy), the following segment; property
access with an absent segment coerces the key to "undefined". -/
def currentKeyOf (path : String) : String :=
  if headKey path = "" then ((splitColon path).drop 1).headD "undefined"
  else headKey path

/-- keys.slice(1).join(":") / keys.join(":") after the shift: the remaining
path handed to a nested store. -/
def restPath (path : String) : String :=
  String.intercalate ":" ((splitColon path).drop 1)

/-- JS truthiness of a `StoreValue`: `null`, `undefined`, `""`, `0` and
`false` are falsy; objects, arrays, stores and functions are truthy. -/
def truthy : SValue → Bool
  | .prim .null => false
  | .prim (.str s) => if s = "" then false else true
  | .prim (.int n) => if n = 0 then false else true
  | .prim (.bool b) => b
  | .undef => false
  | _ => true

/-- Generic JS property read `base[key]` as used by the final `reduce` of
`_getPropertyByPath`: field lookup on plain objects, instance-property lookup
on stores, index/length lookup on arrays; `undefined` on primitives,
`undefined`/`null` and functions (their prototype properties are not
modelled, and none of the store's algorithms depend on them). -/
def jsGet : SValue → String → Option SValue
  | .obj o, k => o.lookup k
  | .store st, k => st.storeGet k
  | .arr a, k =>
      if k = "length" then some (.prim (.int a.length))
      else
        match k.toNat? with
        | some n => if toString n = k then a.getIdx n else Option.none
        | Option.none => Option.none
  | _, _ => Option.none

/-- A freshly constructed `new Store()`: empty data, no overrides (the base
class declares none at the type level), defaultPolicy "rw", no fields. -/
def emptyStore : Store := .mk .nil [] .rw .nil

/-- Object.entries(array): index keys "0", "1", ... paired with elements. -/
def arrEntriesFrom : Nat → Elems → Fields
  | _, .nil => .nil
  | i, .cons v rest => .cons (toString i) v (arrEntriesFrom (i + 1) rest)

def arrEntries (a : Elems) : Fields := arrEntriesFrom 0 a

mutual
/-- Termination weight on values; `wt (.store st)` dominates the weight of
the own-property list `Object.entries(st)` that a structured write of a store
value decomposes into. -/
def SValue.wt : SValue → Nat
  | .prim _ => 1
  | .undef => 1
  | .producer r => 1 + r.wt
  | .obj o => 1 + o.wt
  | .arr a => 1 + a.wt
  | .store st => 8 + st.wt

def Elems.wt : Elems → Nat
  | .nil => 0
  | .cons v rest => 1 + v.wt + rest.wt

def Fields.wt : Fields → Nat
  | .nil => 0
  | .cons _ v rest => 1 + v.wt + rest.wt

def Store.wt : Store → Nat
  | .mk d p _ f => d.wt + 2 * p.length + f.wt
end

theorem permsToFields_wt : ∀ p : List (String × Perm),
    (permsToFields p).wt = 2 * p.length
  | [] => by simp [permsToFields, Fields.wt]
  | (k, q) :: rest => by
      simp [permsToFields, Fields.wt, SValue.wt, permsToFields_wt rest]
      omega

theorem arrEntriesFrom_wt : ∀ (i : Nat) (a : Elems),
    (arrEntriesFrom i a).wt = a.wt
  | _, .nil => by simp [arrEntriesFrom, Fields.wt, Elems.wt]
  | i, .cons v rest => by
      simp [arrEntriesFrom, Fields.wt, Elems.wt, arrEntriesFrom_wt (i + 1) rest]

theorem ownProps_wt (st : Store) : st.ownProps.wt = 6 + st.wt := by
  cases st with
  | mk d p dp f =>
      simp [Store.ownProps, Fields.wt, SValue.wt, Store.wt, permsToFields_wt,
        Store.data, Store.perms, Store.defaultPolicy, Store.fields]
      omega

theorem lk_sizeOf : ∀ (l : Fields) (k : String) (v : SValue),
    l.lookup k = some v → sizeOf v < sizeOf l
  | .cons k1 v1 rest, k, v, h => by
      rw [Fields.lookup] at h
      split at h
      · cases h; simp; omega
      · have := lk_sizeOf rest k v h; simp; omega

theorem fields_sizeOf (s : Store) : sizeOf s.fields < sizeOf s := by
  cases s with
  | mk d p dp f => simp [Store.fields]

theorem data_sizeOf (s : Store) : sizeOf s.data < sizeOf s := by
  cases s with
  | mk d p dp f => simp [Store.data]; omega

theorem storeGet_store_sizeOf (s : Store) (k : String) (c : Store)
    (h : s.storeGet k = some (.store c)) : sizeOf c < sizeOf s := by
  rw [Store.storeGet] at h
  split at h
  · cases h
  · split at h
    · cases h
    · split at h
      · cases h
      · have h1 := lk_sizeOf _ _ _ h
        have h2 := fields_sizeOf s
        simp at h1
        omega

theorem storeGet_producer_sizeOf (s : Store) (k : String) (r : SValue)
    (h : s.storeGet k = some (.producer r)) : sizeOf r + 1 < sizeOf s := by
  rw [Store.storeGet] at h
  split at h
  · cases h
  · split at h
    · cases h
    · split at h
      · cases h
      · have h1 := lk_sizeOf _ _ _ h
        have h2 := fields_sizeOf s
        simp at h1
        omega

theorem mvLookup_store_sizeOf (s : Store) (k : String) (c : Store)
    (h : s.mvLookup k = some (.store c)) : sizeOf c < sizeOf s := by
  rw [Store.mvLookup] at h
  split at h
  · rename_i heq
    cases h
    have h1 := lk_sizeOf _ _ _ heq
    have h2 := data_sizeOf s
    simp at h1
    omega
  · exact storeGet_store_sizeOf s k c h

theorem mvLookup_producer_sizeOf (s : Store) (k : String) (r : SValue)
    (h : s.mvLookup k = some (.producer r)) : sizeOf r + 1 < sizeOf s := by
  rw [Store.mvLookup] at h
  split at h
  · rename_i heq
    cases h
    have h1 := lk_sizeOf _ _ _ heq
    have h2 := data_sizeOf s
    simp at h1
    omega
  · exact storeGet_producer_sizeOf s k r h

/-- The `_getPermissions` algorithm. Splits the path on ":", shifts the
first segment (falling back to the following segment when the first is the
empty string, and to the property key "undefined" when none follows, exactly
as the JS `keys.shift() || keys[0]` with subsequent `store[currentKey]`
coercion behaves). If instance-property access yields a nested store, recurse
into it with the remaining path; if it yields a producer, invoke it, recurse
into the produced store for effect but discard the produced permission — a
produced non-store raises a TypeError (calling `_getPermissions` on a
non-object). Otherwise return the override for the segment, or
`defaultPolicy` when no override is set. -/
def Store.getPermissions (s : Store) (path : String) : Except Err Perm :=
  match h : s.storeGet (currentKeyOf path) with
  | some (.store child) => child.getPermissions (restPath path)
  | some (.producer r) =>
      match hr : r with
      | .store child =>
          match child.getPermissions (restPath path) with
          | .error e => .error e
          | .ok _ => .ok ((plookup s.perms (currentKeyOf path)).getD s.defaultPolicy)
      | _ => .error .typeError
  | _ => .ok ((plookup s.perms (currentKeyOf path)).getD s.defaultPolicy)
termination_by sizeOf s
decreasing_by
  · exact storeGet_store_sizeOf s (currentKeyOf path) child h
  · have := storeGet_producer_sizeOf s (currentKeyOf path) (.store child) h
    simp at this
    omega

/-- allowedToRead: resolve the permission and test membership of "r". -/
def Store.allowedToRead (s : Store) (k : String) : Except Err Bool :=
  match s.getPermissions k with
  | .error e => .error e
  | .ok p => .ok p.includesR

/-- allowedToWrite: resolve the permission and test membership of "w". -/
def Store.allowedToWrite (s : Store) (k : String) : Except Err Bool :=
  match s.getPermissions k with
  | .error e => .error e
  | .ok p => .ok p.includesW

/-- The final `keys.reduce((store, key) => store?.[key] || store, view)` of
`_getPropertyByPath`: walk every segment, keeping the previous accumulator
whenever the property read is absent or falsy. -/
def reduceKeys : SValue → List String → SValue
  | acc, [] => acc
  | acc, k :: ks =>
      reduceKeys
        (match jsGet acc k with
          | some v => if truthy v then v else acc
          | Option.none => acc)
        ks

/-- The tail of `_getPropertyByPath` once the first segment did not resolve
to a nested store: `return this` on an empty first segment, otherwise the
reduce over the merged-view object. -/
def Store.gpFallback (s : Store) (keys : List String) : SValue :=
  if keys.headD "" = "" then .store s
  else reduceKeys (.obj s.mergedView) keys

/-- The `_getPropertyByPath` algorithm: resolve the first segment against the
merged view `{...this, ...this._data}`; recurse into a nested store with the
remaining path; invoke a producer and recurse if it yields a store; otherwise
return `this` when the first segment is empty, else run the falsy-fallback
reduce over the merged view. Never throws. -/
def Store.getPropertyByPath (s : Store) (path : String) : SValue :=
  match h : s.mvLookup (headKey path) with
  | some (.store child) => child.getPropertyByPath (restPath path)
  | some (.producer r) =>
      match hr : r with
      | .store child => child.getPropertyByPath (restPath path)
      | _ => s.gpFallback (splitColon path)
  | _ => s.gpFallback (splitColon path)
termination_by sizeOf s
decreasing_by
  · exact mvLookup_store_sizeOf s (headKey path) child h
  · have := mvLookup_producer_sizeOf s (headKey path) (.store child) h
    simp at this
    omega

mutual
/-- The leaf (non-delegating) part of `_setPropertyByPath` on store `s` with
first path segment `k0`, dispatching on `typeof value`: writing `null`
raises the TypeError of `Object.entries(null)` (since `typeof null` is
"object"); objects, arrays and store instances are decomposed into their
`Object.entries` pairs and materialized through the per-pair loop; any other
value (primitive, `undefined`, or a producer function) is bound directly in
`_data`. The call `newStore._setPropertyByPath(key, val)` performed on a
freshly constructed store inside the structured-write loop is exactly
`setLocal emptyStore (headKey key) val`: a fresh store has no statically
declared fields, so its delegation branch can never fire. -/
def Store.setLocal (s : Store) (k0 : String) (v : SValue) : Store × Option Err :=
  match v with
  | .prim .null => (s, some .typeError)
  | .obj o => forEachPairs s k0 o
  | .arr a => forEachPairs s k0 (arrEntries a)
  | .store st => forEachPairs s k0 st.ownProps
  | _ => (s.setData k0 v, Option.none)
termination_by 2 * v.wt + 1
decreasing_by
  all_goals try simp [SValue.wt, arrEntries, arrEntriesFrom_wt, ownProps_wt]
  all_goals omega

/-- The structured-write loop of `_setPropertyByPath`:
`Object.entries(value).forEach(([key, val]) => { const newStore = new
Store(); newStore._setPropertyByPath(key, val); this._data[keys[0]] =
newStore; })`. Note that a fresh store is created and bound per pair, each
binding overwriting the previous one, and that an error thrown by an inner
write aborts the loop after the bindings of the earlier iterations. -/
def forEachPairs (acc : Store) (k0 : String) (o : Fields) : Store × Option Err :=
  match o with
  | .nil => (acc, Option.none)
  | .cons k v rest =>
      match Store.setLocal emptyStore (headKey k) v with
      | (_, some e) => (acc, some e)
      | (fresh, Option.none) => forEachPairs (acc.setData k0 (.store fresh)) k0 rest
termination_by 2 * o.wt
decreasing_by
  all_goals try simp [Fields.wt]
  all_goals omega
end

/-- The tail of the write-delegation branch: the child store was mutated in
place by the recursive call, so the field is rebound to the mutated child and
the error, if any, propagates. -/
def Store.delegated (s : Store) (k : String) (r : Store × Option Err) :
    Store × Option Err := (s.updateField k r.1, r.2)

/-- The `_setPropertyByPath` algorithm on an arbitrary store: if instance
property access on the first segment yields a nested (statically declared)
store, delegate the write to it with the remaining path; otherwise dispatch
on the value exactly as `setFresh` does, the structured-write loop binding
into this store's `_data` under the first segment. -/
def Store.setPropertyByPath (s : Store) (path : String) (v : SValue) :
    Store × Option Err :=
  match h : s.storeGet (headKey path) with
  | some (.store child) =>
      s.delegated (headKey path) (child.setPropertyByPath (restPath path) v)
  | _ => s.setLocal (headKey path) v
termination_by sizeOf s
decreasing_by
  exact storeGet_store_sizeOf s (headKey path) child h

/-- read(path): throw AccessDenied unless allowedToRead, else navigate. -/
def Store.read (s : Store) (path : String) : Except Err SValue :=
  match s.allowedToRead path with
  | .error e => .error e
  | .ok true => .ok (s.getPropertyByPath path)
  | .ok false => .error .accessDenied

/-- write(path, value): throw AccessDenied unless allowedToWrite, else set.
The post-state is returned together with the error, if any: mutations applied
before a throw remain committed. -/
def Store.write (s : Store) (path : String) (v : SValue) : Store × Option Err :=
  match s.allowedToWrite path with
  | .error e => (s, some e)
  | .ok true => s.setPropertyByPath path v
  | .ok false => (s, some .accessDenied)

/-- writeEntries(entries): one write per top-level pair, in encounter order,
aborting at (but keeping the state reached before) the first error. -/
def Store.writeEntries (s : Store) : List (String × SValue) → Store × Option Err
  | [] => (s, Option.none)
  | (k, v) :: rest =>
      match s.write k v with
      | (s1, some e) => (s1, some e)
      | (s1, Option.none) => s1.writeEntries rest

/-- The snapshot filter `_correctType`: keep values that are not functions,
not undefined, and not of JS type "object" — which excludes `null` along
with plain objects, arrays and nested stores. -/
def correctType : SValue → Bool
  | .prim .null => false
  | .prim _ => true
  | _ => false

/-- The filter pass of `entries()`: keep the pairs of the merged view whose
key is readable and whose value survives `_correctType`; a permission
resolution error thrown while testing a key aborts the whole snapshot. -/
def Store.entriesFilter (s : Store) : Fields → Except Err Fields
  | .nil => .ok .nil
  | .cons k v rest =>
      match s.allowedToRead k with
      | .error e => .error e
      | .ok b =>
          match s.entriesFilter rest with
          | .error e => .error e
          | .ok r => .ok (if b && correctType v then .cons k v r else r)

/-- entries(): filter the merged view `{...this._data, ...this}` and rebuild
the surviving pairs into a fresh object via the final `reduce`. -/
def Store.entries (s : Store) : Except Err Fields :=
  match s.entriesFilter s.entriesView with
  | .error e => .error e
  | .ok kept => .ok (Fields.spread .nil kept)


/-! ### Well-formedness predicates and the permission skeleton -/

mutual
/-- No producer occurs among the statically declared fields of this store or
(transitively) of its statically declared sub-stores. Permission resolution
can only invoke producers reached through these fields, so on such stores it
never raises a TypeError. -/
def Store.producerFree : Store → Bool
  | .mk _ _ _ f => f.pfFields

def Fields.pfFields : Fields → Bool
  | .nil => true
  | .cons _ v rest => v.pfVal && rest.pfFields

def SValue.pfVal : SValue → Bool
  | .producer _ => false
  | .store st => st.producerFree
  | _ => true
end

mutual
/-- The JS value contains no `null` anywhere (including inside objects,
arrays, store instances and producer results). Writing such a value can
never reach the `Object.entries(null)` TypeError. -/
def SValue.noNull : SValue → Bool
  | .prim .null => false
  | .prim _ => true
  | .undef => true
  | .producer r => r.noNull
  | .obj o => o.noNullF
  | .arr a => a.noNullE
  | .store st => st.noNullS

def Fields.noNullF : Fields → Bool
  | .nil => true
  | .cons _ v rest => v.noNull && rest.noNullF

def Elems.noNullE : Elems → Bool
  | .nil => true
  | .cons v rest => v.noNull && rest.noNullE

def Store.noNullS : Store → Bool
  | .mk d _ _ f => d.noNullF && f.noNullF
end

mutual
/-- Erase every `_data` map in the store tree (recursively through statically
declared sub-store fields), keeping permission maps, default policies and the
field structure: the part of the state that `write` must never change. -/
def Store.skel : Store → Store
  | .mk _ p dp f => .mk .nil p dp f.skelMap

def Fields.skelMap : Fields → Fields
  | .nil => .nil
  | .cons k v rest => .cons k v.skel rest.skelMap

def SValue.skel : SValue → SValue
  | .store st => .store st.skel
  | .prim p => .prim p
  | .undef => .undef
  | .obj o => .obj o
  | .arr a => .arr a
  | .producer r => .producer r
end

/-! ### Association-list lemmas -/

def Fields.hasKey : Fields → String → Bool
  | .nil, _ => false
  | .cons k _ rest, key => if key = k then true else rest.hasKey key

/-- Whether every key occurs at most once: the invariant of any JS object. -/
def Fields.keysNodup : Fields → Bool
  | .nil => true
  | .cons k _ rest => (!rest.hasKey k) && rest.keysNodup

/-- The last binding of a key, which is the one JS spread/assignment
semantics lets win. -/
def Fields.lookupLast : Fields → String → Option SValue
  | .nil, _ => Option.none
  | .cons k v rest, key =>
      match rest.lookupLast key with
      | some w => some w
      | Option.none => if key = k then some v else Option.none

/-- Whether the binding `k ↦ v` occurs in the list. -/
def Fields.pairMem : Fields → String → SValue → Bool
  | .nil, _, _ => false
  | .cons k1 v1 rest, k, v =>
      (decide (k = k1) && decide (v = v1)) || rest.pairMem k v

theorem insert_lookup : ∀ (l : Fields) (k : String) (v : SValue) (k' : String),
    (l.insert k v).lookup k' = if k' = k then some v else l.lookup k'
  | .nil, k, v, k' => by simp [Fields.insert, Fields.lookup]
  | .cons k1 v1 rest, k, v, k' => by
      rw [Fields.insert]
      by_cases h1 : k = k1
      · subst h1
        rw [if_pos rfl, Fields.lookup, Fields.lookup]
        by_cases h2 : k' = k <;> simp [h2]
      · rw [if_neg h1, Fields.lookup, Fields.lookup]
        by_cases h2 : k' = k1
        · subst h2
          rw [if_pos rfl, if_neg fun hh => h1 hh.symm, if_pos rfl]
        · rw [if_neg h2, if_neg h2, insert_lookup rest k v k']

theorem spread_lookup : ∀ (e b : Fields) (k : String),
    (Fields.spread b e).lookup k =
      match e.lookupLast k with
      | some w => some w
      | Option.none => b.lookup k
  | .nil, b, k => by simp [Fields.spread, Fields.lookupLast]
  | .cons k1 v1 rest, b, k => by
      rw [Fields.spread, spread_lookup rest (b.insert k1 v1) k,
        Fields.lookupLast]
      cases hlast : rest.lookupLast k with
      | some w => simp
      | none =>
          simp only [insert_lookup]
          by_cases h : k = k1 <;> simp [h]

theorem lookupLast_of_hasKey_false : ∀ (l : Fields) (k : String),
    l.hasKey k = false → l.lookupLast k = Option.none
  | .nil, k, _ => by simp [Fields.lookupLast]
  | .cons k1 v1 rest, k, h => by
      rw [Fields.hasKey] at h
      split at h
      · cases h
      · rw [Fields.lookupLast, lookupLast_of_hasKey_false rest k h]
        rename_i hk
        simp [hk]

theorem lookup_of_hasKey_false : ∀ (l : Fields) (k : String),
    l.hasKey k = false → l.lookup k = Option.none
  | .nil, k, _ => by simp [Fields.lookup]
  | .cons k1 v1 rest, k, h => by
      rw [Fields.hasKey] at h
      split at h
      · cases h
      · rw [Fields.lookup]
        rename_i hk
        rw [if_neg hk]
        exact lookup_of_hasKey_false rest k h

theorem lookupLast_eq_lookup_of_nodup : ∀ (l : Fields) (k : String),
    l.keysNodup = true → l.lookupLast k = l.lookup k
  | .nil, k, _ => by simp [Fields.lookupLast, Fields.lookup]
  | .cons k1 v1 rest, k, h => by
      rw [Fields.keysNodup] at h
      simp only [Bool.and_eq_true, Bool.not_eq_true'] at h
      rw [Fields.lookupLast, Fields.lookup,
        lookupLast_eq_lookup_of_nodup rest k h.2]
      by_cases hk : k = k1
      · subst hk
        rw [lookup_of_hasKey_false rest k h.1]
      · simp only [if_neg hk]
        cases rest.lookup k <;> simp

theorem lookupLast_pairMem : ∀ (l : Fields) (k : String) (v : SValue),
    l.lookupLast k = some v → l.pairMem k v = true
  | .cons k1 v1 rest, k, v, h => by
      rw [Fields.lookupLast] at h
      rw [Fields.pairMem]
      cases hlast : rest.lookupLast k with
      | some w =>
          rw [hlast] at h
          simp at h
          subst h
          have := lookupLast_pairMem rest k w hlast
          simp [this]
      | none =>
          rw [hlast] at h
          simp at h
          obtain ⟨hk, hv⟩ := h
          simp [hk, hv]

theorem insert_hasKey : ∀ (l : Fields) (k : String) (v : SValue) (k' : String),
    (l.insert k v).hasKey k' = (l.hasKey k' || decide (k' = k))
  | .nil, k, v, k' => by
      by_cases h : k' = k <;> simp [Fields.insert, Fields.hasKey, h]
  | .cons k1 v1 rest, k, v, k' => by
      rw [Fields.insert]
      by_cases h1 : k = k1
      · subst h1
        rw [if_pos rfl]
        by_cases h2 : k' = k <;> simp [Fields.hasKey, h2]
      · rw [if_neg h1, Fields.hasKey, Fields.hasKey]
        by_cases h2 : k' = k1
        · simp [h2]
        · simp only [if_neg h2]
          exact insert_hasKey rest k v k'

theorem insert_nodup : ∀ (l : Fields) (k : String) (v : SValue),
    l.keysNodup = true → (l.insert k v).keysNodup = true
  | .nil, k, v, _ => by simp [Fields.insert, Fields.keysNodup, Fields.hasKey]
  | .cons k1 v1 rest, k, v, h => by
      rw [Fields.keysNodup] at h
      simp only [Bool.and_eq_true, Bool.not_eq_true'] at h
      rw [Fields.insert]
      by_cases h1 : k = k1
      · subst h1
        rw [if_pos rfl, Fields.keysNodup]
        simp [h.1, h.2]
      · rw [if_neg h1, Fields.keysNodup]
        simp only [Bool.and_eq_true, Bool.not_eq_true']
        refine ⟨?_, insert_nodup rest k v h.2⟩
        rw [insert_hasKey]
        simp [h.1]
        intro hh
        exact absurd hh.symm h1

theorem spread_nodup : ∀ (e b : Fields), b.keysNodup = true →
    (Fields.spread b e).keysNodup = true
  | .nil, b, h => h
  | .cons k1 v1 rest, b, h => by
      rw [Fields.spread]
      exact spread_nodup rest (b.insert k1 v1) (insert_nodup b k1 v1 h)

theorem filter_ok_lookup (s : Store) :
    ∀ (l r : Fields) (k : String) (v : SValue),
      s.entriesFilter l = .ok r → l.lookup k = some v →
      s.allowedToRead k = .ok true → correctType v = true →
      r.lookup k = some v
  | .cons k1 v1 rest, r, k, v, hf, hl, ha, hct => by
      rw [Store.entriesFilter] at hf
      rw [Fields.lookup] at hl
      cases har : s.allowedToRead k1 with
      | error e => rw [har] at hf; cases hf
      | ok b =>
          rw [har] at hf
          cases hef : s.entriesFilter rest with
          | error e => rw [hef] at hf; cases hf
          | ok r1 =>
              rw [hef] at hf
              cases hf
              by_cases hk : k = k1
              · subst hk
                rw [if_pos rfl] at hl
                cases hl
                rw [ha] at har
                cases har
                have hcond : (true && correctType v1) = true := by rw [hct]; rfl
                rw [if_pos hcond, Fields.lookup, if_pos rfl]
              · rw [if_neg hk] at hl
                have := filter_ok_lookup s rest r1 k v hef hl ha hct
                by_cases hkeep : (b && correctType v1) = true
                · rw [if_pos hkeep, Fields.lookup, if_neg hk]
                  exact this
                · rw [if_neg hkeep]
                  exact this

theorem filter_pairMem_sound (s : Store) :
    ∀ (l r : Fields) (k : String) (v : SValue),
      s.entriesFilter l = .ok r → r.pairMem k v = true →
      s.allowedToRead k = .ok true ∧ correctType v = true
  | .nil, r, k, v, hf, hm => by
      rw [Store.entriesFilter] at hf
      cases hf
      rw [Fields.pairMem] at hm
      cases hm
  | .cons k1 v1 rest, r, k, v, hf, hm => by
      rw [Store.entriesFilter] at hf
      cases har : s.allowedToRead k1 with
      | error e => rw [har] at hf; cases hf
      | ok b =>
          rw [har] at hf
          cases hef : s.entriesFilter rest with
          | error e => rw [hef] at hf; cases hf
          | ok r1 =>
              rw [hef] at hf
              cases hf
              by_cases hkeep : (b && correctType v1) = true
              · rw [if_pos hkeep] at hm
                rw [Fields.pairMem] at hm
                simp only [Bool.or_eq_true, Bool.and_eq_true, decide_eq_true_eq] at hm
                cases hm with
                | inl hkv =>
                    obtain ⟨hk, hv⟩ := hkv
                    subst hk
                    subst hv
                    simp only [Bool.and_eq_true] at hkeep
                    rw [har]
                    exact ⟨by rw [hkeep.1], hkeep.2⟩
                | inr hrest => exact filter_pairMem_sound s rest r1 k v hef hrest
              · rw [if_neg hkeep] at hm
                exact filter_pairMem_sound s rest r1 k v hef hm

theorem filter_hasKey_sub (s : Store) :
    ∀ (l r : Fields) (k : String),
      s.entriesFilter l = .ok r → r.hasKey k = true → l.hasKey k = true
  | .nil, r, k, hf, hm => by
      rw [Store.entriesFilter] at hf
      cases hf
      rw [Fields.hasKey] at hm
      cases hm
  | .cons k1 v1 rest, r, k, hf, hm => by
      rw [Store.entriesFilter] at hf
      cases har : s.allowedToRead k1 with
      | error e => rw [har] at hf; cases hf
      | ok b =>
          rw [har] at hf
          cases hef : s.entriesFilter rest with
          | error e => rw [hef] at hf; cases hf
          | ok r1 =>
              rw [hef] at hf
              cases hf
              rw [Fields.hasKey]
              by_cases hk : k = k1
              · simp [hk]
              · rw [if_neg hk]
                by_cases hkeep : (b && correctType v1) = true
                · rw [if_pos hkeep, Fields.hasKey, if_neg hk] at hm
                  exact filter_hasKey_sub s rest r1 k hef hm
                · rw [if_neg hkeep] at hm
                  exact filter_hasKey_sub s rest r1 k hef hm

theorem filter_nodup (s : Store) :
    ∀ (l r : Fields),
      s.entriesFilter l = .ok r → l.keysNodup = true → r.keysNodup = true
  | .nil, r, hf, _ => by
      rw [Store.entriesFilter] at hf
      cases hf
      rfl
  | .cons k1 v1 rest, r, hf, hnd => by
      rw [Store.entriesFilter] at hf
      rw [Fields.keysNodup] at hnd
      simp only [Bool.and_eq_true, Bool.not_eq_true'] at hnd
      cases har : s.allowedToRead k1 with
      | error e => rw [har] at hf; cases hf
      | ok b =>
          rw [har] at hf
          cases hef : s.entriesFilter rest with
          | error e => rw [hef] at hf; cases hf
          | ok r1 =>
              rw [hef] at hf
              cases hf
              have hr1 := filter_nodup s rest r1 hef hnd.2
              by_cases hkeep : (b && correctType v1) = true
              · rw [if_pos hkeep, Fields.keysNodup]
                simp only [Bool.and_eq_true, Bool.not_eq_true']
                refine ⟨?_, hr1⟩
                cases hr1k : r1.hasKey k1
                · rfl
                · have := filter_hasKey_sub s rest r1 k1 hef hr1k
                  rw [this] at hnd
                  cases hnd.1
              · rw [if_neg hkeep]
                exact hr1

theorem storeGet_store_fields (s : Store) (k : String) (c : Store)
    (h : s.storeGet k = some (.store c)) : s.fields.lookup k = some (.store c) := by
  rw [Store.storeGet] at h
  split at h
  · cases h
  · split at h
    · cases h
    · split at h
      · cases h
      · exact h

theorem storeGet_producer_fields (s : Store) (k : String) (r : SValue)
    (h : s.storeGet k = some (.producer r)) :
    s.fields.lookup k = some (.producer r) := by
  rw [Store.storeGet] at h
  split at h
  · cases h
  · split at h
    · cases h
    · split at h
      · cases h
      · exact h

theorem pfFields_lookup_store : ∀ (f : Fields) (k : String) (c : Store),
    f.pfFields = true → f.lookup k = some (.store c) → c.producerFree = true
  | .cons k1 v1 rest, k, c, hpf, hl => by
      rw [Fields.pfFields] at hpf
      simp only [Bool.and_eq_true] at hpf
      rw [Fields.lookup] at hl
      split at hl
      · cases hl
        have h1 := hpf.1
        simp only [SValue.pfVal] at h1
        exact h1
      · exact pfFields_lookup_store rest k c hpf.2 hl

theorem pfFields_lookup_producer : ∀ (f : Fields) (k : String) (r : SValue),
    f.pfFields = true → f.lookup k = some (.producer r) → False
  | .cons k1 v1 rest, k, r, hpf, hl => by
      rw [Fields.pfFields] at hpf
      simp only [Bool.and_eq_true] at hpf
      rw [Fields.lookup] at hl
      split at hl
      · cases hl
        have h1 := hpf.1
        simp [SValue.pfVal] at h1
      · exact pfFields_lookup_producer rest k r hpf.2 hl

theorem producerFree_storeGet_store (s : Store) (k : String) (c : Store)
    (hpf : s.producerFree = true) (h : s.storeGet k = some (.store c)) :
    c.producerFree = true := by
  cases s with
  | mk d p dp f =>
      rw [Store.producerFree] at hpf
      exact pfFields_lookup_store f k c hpf
        (by simpa [Store.fields] using storeGet_store_fields _ k c h)

theorem producerFree_storeGet_producer (s : Store) (k : String) (r : SValue)
    (hpf : s.producerFree = true) (h : s.storeGet k = some (.producer r)) :
    False := by
  cases s with
  | mk d p dp f =>
      rw [Store.producerFree] at hpf
      exact pfFields_lookup_producer f k r hpf
        (by simpa [Store.fields] using storeGet_producer_fields _ k r h)

mutual
theorem pfVal_skel : ∀ v : SValue, v.skel.pfVal = v.pfVal
  | .prim p => rfl
  | .undef => rfl
  | .obj o => rfl
  | .arr a => rfl
  | .producer r => rfl
  | .store st => by
      rw [SValue.skel]
      simp only [SValue.pfVal]
      exact pf_skel st

theorem pfFields_skel : ∀ f : Fields, f.skelMap.pfFields = f.pfFields
  | .nil => rfl
  | .cons k v rest => by
      rw [Fields.skelMap, Fields.pfFields, Fields.pfFields, pfVal_skel v,
        pfFields_skel rest]

theorem pf_skel : ∀ s : Store, s.skel.producerFree = s.producerFree
  | .mk d p dp f => by
      rw [Store.skel, Store.producerFree, Store.producerFree, pfFields_skel f]
end

theorem setData_skel (s : Store) (k : String) (v : SValue) :
    (s.setData k v).skel = s.skel := by
  cases s with
  | mk d p dp f => rfl

theorem updateVal_skelMap : ∀ (f : Fields) (k : String) (c c' : Store),
    f.lookup k = some (.store c) → c'.skel = c.skel →
    (f.updateVal k (.store c')).skelMap = f.skelMap
  | .cons k1 v1 rest, k, c, c', hl, hsk => by
      rw [Fields.lookup] at hl
      rw [Fields.updateVal]
      split at hl
      · cases hl
        rename_i hk
        rw [if_pos hk, Fields.skelMap, Fields.skelMap, SValue.skel, SValue.skel,
          hsk]
      · rename_i hk
        rw [if_neg hk, Fields.skelMap, Fields.skelMap,
          updateVal_skelMap rest k c c' hl hsk]

theorem updateField_skel (s : Store) (k : String) (c c' : Store)
    (hl : s.fields.lookup k = some (.store c)) (hsk : c'.skel = c.skel) :
    (s.updateField k c').skel = s.skel := by
  cases s with
  | mk d p dp f =>
      rw [Store.updateField, Store.skel, Store.skel,
        updateVal_skelMap f k c c' (by simpa [Store.fields] using hl) hsk]

theorem forEach_skel : ∀ (o : Fields) (acc : Store) (k0 : String),
    ((forEachPairs acc k0 o).1).skel = acc.skel
  | .nil, acc, k0 => by
      simp only [forEachPairs]
  | .cons k v rest, acc, k0 => by
      simp only [forEachPairs]
      cases hsf : Store.setLocal emptyStore (headKey k) v with
      | mk fresh e =>
          cases e with
          | some err => simp
          | none =>
              simp only []
              rw [forEach_skel rest (acc.setData k0 (.store fresh)) k0,
                setData_skel]

theorem permsToFields_noNull : ∀ p : List (String × Perm),
    (permsToFields p).noNullF = true
  | [] => rfl
  | (k, q) :: rest => by
      rw [permsToFields, Fields.noNullF]
      simp only [Bool.and_eq_true]
      exact ⟨by cases q <;> rfl, permsToFields_noNull rest⟩

theorem arrEntriesFrom_noNull : ∀ (i : Nat) (a : Elems),
    (arrEntriesFrom i a).noNullF = a.noNullE
  | _, .nil => rfl
  | i, .cons v rest => by
      rw [arrEntriesFrom, Fields.noNullF, Elems.noNullE,
        arrEntriesFrom_noNull (i + 1) rest]

theorem ownProps_noNull (st : Store) (h : st.noNullS = true) :
    st.ownProps.noNullF = true := by
  cases st with
  | mk d p dp f =>
      rw [Store.noNullS] at h
      simp only [Bool.and_eq_true] at h
      rw [Store.ownProps]
      simp only [Store.data, Store.perms, Store.defaultPolicy, Store.fields,
        Fields.noNullF, SValue.noNull, Bool.and_eq_true]
      exact ⟨h.1, permsToFields_noNull p, trivial, h.2⟩

/-! ### Branch equations for the recursive algorithms -/

theorem gpm_eq_store (s : Store) (path : String) (child : Store)
    (h : s.storeGet (currentKeyOf path) = some (.store child)) :
    s.getPermissions path = child.getPermissions (restPath path) := by
  rw [Store.getPermissions.eq_def]
  split
  · rename_i child1 heq
    rw [h] at heq
    simp at heq
    rw [heq]
  · rename_i r heq
    rw [h] at heq
    simp at heq
  · rename_i hf1 hf2
    exact absurd h (fun hh => hf1 child hh)

theorem gpm_eq_producer_store (s : Store) (path : String) (child : Store)
    (h : s.storeGet (currentKeyOf path) = some (.producer (.store child))) :
    s.getPermissions path =
      match child.getPermissions (restPath path) with
      | .error e => .error e
      | .ok _ => .ok ((plookup s.perms (currentKeyOf path)).getD s.defaultPolicy) := by
  rw [Store.getPermissions.eq_def]
  split
  · rename_i child1 heq
    rw [h] at heq
    simp at heq
  · rename_i r heq
    rw [h] at heq
    simp at heq
    subst heq
    rfl
  · rename_i hf1 hf2
    exact absurd h (fun hh => hf2 (.store child) hh)

theorem gpm_eq_producer_nonstore (s : Store) (path : String) (r : SValue)
    (h : s.storeGet (currentKeyOf path) = some (.producer r))
    (hr : ∀ c : Store, r ≠ .store c) :
    s.getPermissions path = .error .typeError := by
  rw [Store.getPermissions.eq_def]
  split
  · rename_i child1 heq
    rw [h] at heq
    simp at heq
  · rename_i r1 heq
    rw [h] at heq
    simp at heq
    subst heq
    cases r with
    | store c => exact absurd rfl (hr c)
    | prim p => rfl
    | undef => rfl
    | obj o => rfl
    | arr a => rfl
    | producer q => rfl
  · rename_i hf1 hf2
    exact absurd h (fun hh => hf2 r hh)

theorem gpm_eq_default (s : Store) (path : String)
    (h1 : ∀ c : Store, s.storeGet (currentKeyOf path) ≠ some (.store c))
    (h2 : ∀ r : SValue, s.storeGet (currentKeyOf path) ≠ some (.producer r)) :
    s.getPermissions path =
      .ok ((plookup s.perms (currentKeyOf path)).getD s.defaultPolicy) := by
  rw [Store.getPermissions.eq_def]
  split
  · rename_i child1 heq
    exact absurd heq (h1 child1)
  · rename_i r heq
    exact absurd heq (h2 r)
  · rfl

theorem gpp_eq_store (s : Store) (path : String) (child : Store)
    (h : s.mvLookup (headKey path) = some (.store child)) :
    s.getPropertyByPath path = child.getPropertyByPath (restPath path) := by
  rw [Store.getPropertyByPath.eq_def]
  split
  · rename_i child1 heq
    rw [h] at heq
    simp at heq
    rw [heq]
  · rename_i r heq
    rw [h] at heq
    simp at heq
  · rename_i hf1 hf2
    exact absurd h (fun hh => hf1 child hh)

theorem gpp_eq_default (s : Store) (path : String)
    (h1 : ∀ c : Store, s.mvLookup (headKey path) ≠ some (.store c))
    (h2 : ∀ r : SValue, s.mvLookup (headKey path) ≠ some (.producer r)) :
    s.getPropertyByPath path = s.gpFallback (splitColon path) := by
  rw [Store.getPropertyByPath.eq_def]
  split
  · rename_i child1 heq
    exact absurd heq (h1 child1)
  · rename_i r heq
    exact absurd heq (h2 r)
  · rfl

theorem set_eq_delegate (s : Store) (path : String) (v : SValue) (child : Store)
    (h : s.storeGet (headKey path) = some (.store child)) :
    s.setPropertyByPath path v =
      (s.updateField (headKey path) (child.setPropertyByPath (restPath path) v).1,
       (child.setPropertyByPath (restPath path) v).2) := by
  show s.setPropertyByPath path v =
    s.delegated (headKey path) (child.setPropertyByPath (restPath path) v)
  rw [Store.setPropertyByPath.eq_def]
  split
  · rename_i child1 heq
    rw [h] at heq
    simp at heq
    rw [heq]
  · rename_i hf1
    exact absurd h (fun hh => hf1 child hh)

theorem set_eq_nondelegate (s : Store) (path : String) (v : SValue)
    (h : ∀ c : Store, s.storeGet (headKey path) ≠ some (.store c)) :
    s.setPropertyByPath path v = s.setLocal (headKey path) v := by
  rw [Store.setPropertyByPath.eq_def]
  split
  · rename_i child1 heq
    exact absurd heq (h child1)
  · rfl

/-! ### Permission resolution never fails on producer-free stores -/

theorem gp_total (s : Store) (path : String) : s.producerFree = true →
    ∃ q, s.getPermissions path = .ok q := by
  induction s, path using Store.getPermissions.induct with
  | case1 s path child h ih =>
      intro hpf
      obtain ⟨q, hq⟩ := ih (producerFree_storeGet_store s _ child hpf h)
      exact ⟨q, by rw [gpm_eq_store s path child h]; exact hq⟩
  | case2 s path child h1 e hx h ih =>
      intro hpf
      exact (producerFree_storeGet_producer s _ _ hpf h).elim
  | case3 s path child h1 q hx h ih =>
      intro hpf
      exact (producerFree_storeGet_producer s _ _ hpf h).elim
  | case4 s path r h1 h hx =>
      intro hpf
      exact (producerFree_storeGet_producer s _ _ hpf h).elim
  | case5 s path hx1 hx2 =>
      intro hpf
      exact ⟨_, gpm_eq_default s path (fun c hh => hx1 c hh) (fun r hh => hx2 r hh)⟩

theorem ar_total (s : Store) (k : String) (hpf : s.producerFree = true) :
    s.allowedToRead k = .ok ((s.getPermissions k).toOption.getD .none).includesR := by
  obtain ⟨q, hq⟩ := gp_total s k hpf
  simp [Store.allowedToRead, hq, Except.toOption]

theorem aw_total (s : Store) (k : String) (hpf : s.producerFree = true) :
    s.allowedToWrite k = .ok ((s.getPermissions k).toOption.getD .none).includesW := by
  obtain ⟨q, hq⟩ := gp_total s k hpf
  simp [Store.allowedToWrite, hq, Except.toOption]

/-! ### Error classification and null-freedom for the write engine -/

mutual
theorem setLocal_props : ∀ (s : Store) (k0 : String) (v : SValue),
    (∀ e, (s.setLocal k0 v).2 = some e → e = Err.typeError) ∧
    (v.noNull = true → (s.setLocal k0 v).2 = Option.none)
  | s, k0, .prim .null => by
      refine ⟨fun e h => ?_, fun hv => ?_⟩
      · simp only [Store.setLocal] at h
        simp at h
        exact h.symm
      · simp [SValue.noNull] at hv
  | s, k0, .prim (.str a) => by
      refine ⟨fun e h => ?_, fun hv => ?_⟩ <;> simp [Store.setLocal] at *
  | s, k0, .prim (.int n) => by
      refine ⟨fun e h => ?_, fun hv => ?_⟩ <;> simp [Store.setLocal] at *
  | s, k0, .prim (.bool b) => by
      refine ⟨fun e h => ?_, fun hv => ?_⟩ <;> simp [Store.setLocal] at *
  | s, k0, .undef => by
      refine ⟨fun e h => ?_, fun hv => ?_⟩ <;> simp [Store.setLocal] at *
  | s, k0, .producer r => by
      refine ⟨fun e h => ?_, fun hv => ?_⟩ <;> simp [Store.setLocal] at *
  | s, k0, .obj o => by
      refine ⟨fun e h => ?_, fun hv => ?_⟩
      · simp only [Store.setLocal] at h
        exact (forEachPairs_props s k0 o).1 e h
      · simp only [SValue.noNull] at hv
        simp only [Store.setLocal]
        exact (forEachPairs_props s k0 o).2 hv
  | s, k0, .arr a => by
      refine ⟨fun e h => ?_, fun hv => ?_⟩
      · simp only [Store.setLocal] at h
        exact (forEachPairs_props s k0 (arrEntries a)).1 e h
      · simp only [SValue.noNull] at hv
        simp only [Store.setLocal]
        exact (forEachPairs_props s k0 (arrEntries a)).2
          (by rw [arrEntries, arrEntriesFrom_noNull]; exact hv)
  | s, k0, .store st => by
      refine ⟨fun e h => ?_, fun hv => ?_⟩
      · simp only [Store.setLocal] at h
        exact (forEachPairs_props s k0 st.ownProps).1 e h
      · simp only [SValue.noNull] at hv
        simp only [Store.setLocal]
        exact (forEachPairs_props s k0 st.ownProps).2 (ownProps_noNull st hv)
termination_by s k0 v => 2 * v.wt + 1
decreasing_by
  all_goals try simp [SValue.wt, arrEntries, arrEntriesFrom_wt, ownProps_wt]
  all_goals omega

theorem forEachPairs_props : ∀ (acc : Store) (k0 : String) (o : Fields),
    (∀ e, (forEachPairs acc k0 o).2 = some e → e = Err.typeError) ∧
    (o.noNullF = true → (forEachPairs acc k0 o).2 = Option.none)
  | acc, k0, .nil => by
      refine ⟨fun e h => ?_, fun hv => ?_⟩ <;> simp [forEachPairs] at *
  | acc, k0, .cons k v rest => by
      refine ⟨fun e h => ?_, fun hv => ?_⟩
      · simp only [forEachPairs] at h
        cases hsf : Store.setLocal emptyStore (headKey k) v with
        | mk fresh e1 =>
            rw [hsf] at h
            cases e1 with
            | some err =>
                simp at h
                subst h
                exact (setLocal_props emptyStore (headKey k) v).1 err
                  (by rw [hsf])
            | none =>
                simp only [] at h
                exact (forEachPairs_props (acc.setData k0 (.store fresh)) k0 rest).1 e h
      · rw [Fields.noNullF] at hv
        simp only [Bool.and_eq_true] at hv
        simp only [forEachPairs]
        cases hsf : Store.setLocal emptyStore (headKey k) v with
        | mk fresh e1 =>
            cases e1 with
            | some err =>
                have := (setLocal_props emptyStore (headKey k) v).2 hv.1
                rw [hsf] at this
                cases this
            | none =>
                simp only []
                exact (forEachPairs_props (acc.setData k0 (.store fresh)) k0 rest).2 hv.2
termination_by acc k0 o => 2 * o.wt
decreasing_by
  all_goals try simp [Fields.wt]
  all_goals omega
end

theorem setLocal_skel (s : Store) (k0 : String) (v : SValue) :
    ((s.setLocal k0 v).1).skel = s.skel := by
  cases v with
  | prim p =>
      cases p with
      | null => simp [Store.setLocal]
      | str a => simp only [Store.setLocal]; exact setData_skel s k0 _
      | int n => simp only [Store.setLocal]; exact setData_skel s k0 _
      | bool b => simp only [Store.setLocal]; exact setData_skel s k0 _
  | undef => simp only [Store.setLocal]; exact setData_skel s k0 _
  | producer r => simp only [Store.setLocal]; exact setData_skel s k0 _
  | obj o => simp only [Store.setLocal]; exact forEach_skel o s k0
  | arr a => simp only [Store.setLocal]; exact forEach_skel (arrEntries a) s k0
  | store st => simp only [Store.setLocal]; exact forEach_skel st.ownProps s k0

theorem set_props : ∀ (s : Store) (path : String) (v : SValue),
    ((s.setPropertyByPath path v).1).skel = s.skel ∧
    (∀ e, (s.setPropertyByPath path v).2 = some e → e = Err.typeError) ∧
    (v.noNull = true → (s.setPropertyByPath path v).2 = Option.none) := by
  intro s path v
  induction s, path, v using Store.setPropertyByPath.induct with
  | case1 s path v child h ih =>
      rw [set_eq_delegate s path v child h]
      obtain ⟨ihsk, iherr, ihnn⟩ := ih
      refine ⟨?_, fun e he => iherr e he, fun hv => ihnn hv⟩
      exact updateField_skel s (headKey path) child _
        (storeGet_store_fields s _ child h) ihsk
  | case2 s path v hx =>
      rw [set_eq_nondelegate s path v (fun c hh => hx c hh)]
      exact ⟨setLocal_skel s _ v, (setLocal_props s _ v).1,
        (setLocal_props s _ v).2⟩

theorem write_skel (s : Store) (path : String) (v : SValue) :
    ((s.write path v).1).skel = s.skel := by
  simp only [Store.write]
  cases haw : s.allowedToWrite path with
  | error e => rfl
  | ok b =>
      cases b
      · rfl
      · exact (set_props s path v).1

theorem write_producerFree (s : Store) (path : String) (v : SValue) :
    ((s.write path v).1).producerFree = s.producerFree := by
  rw [← pf_skel ((s.write path v).1), write_skel, pf_skel]

theorem write_err_classify (s : Store) (path : String) (v : SValue) (e : Err)
    (hpf : s.producerFree = true) (hv : v.noNull = true)
    (he : (s.write path v).2 = some e) : e = Err.accessDenied := by
  obtain ⟨q, hq⟩ := gp_total s path hpf
  have haw : s.allowedToWrite path = .ok q.includesW := by
    simp only [Store.allowedToWrite, hq]
  simp only [Store.write, haw] at he
  cases hb : q.includesW
  · rw [hb] at he
    simp at he
    exact he.symm
  · rw [hb] at he
    simp only [] at he
    have := (set_props s path v).2.2 hv
    rw [this] at he
    cases he

theorem writeEntries_skel : ∀ (es : List (String × SValue)) (s : Store),
    ((s.writeEntries es).1).skel = s.skel
  | [], s => rfl
  | (k, v) :: rest, s => by
      simp only [Store.writeEntries]
      cases hw : s.write k v with
      | mk s1 e =>
          have h1 : s1.skel = s.skel := by
            have := write_skel s k v
            rw [hw] at this
            exact this
          cases e with
          | some err => exact h1
          | none =>
              simp only []
              rw [writeEntries_skel rest s1, h1]

theorem writeEntries_errs : ∀ (es : List (String × SValue)) (s : Store),
    s.producerFree = true → (∀ q ∈ es, (q.2).noNull = true) →
    (s.writeEntries es).2 = Option.none ∨
      (s.writeEntries es).2 = some Err.accessDenied
  | [], s, _, _ => .inl rfl
  | (k, v) :: rest, s, hpf, hnn => by
      simp only [Store.writeEntries]
      cases hw : s.write k v with
      | mk s1 e =>
          cases e with
          | some err =>
              right
              have : err = Err.accessDenied :=
                write_err_classify s k v err hpf
                  (hnn (k, v) (List.mem_cons_self _ _)) (by rw [hw])
              rw [this]
          | none =>
              simp only []
              have hpf1 : s1.producerFree = true := by
                have := write_producerFree s k v
                rw [hw] at this
                simp at this
                rw [this]
                exact hpf
              exact writeEntries_errs rest s1 hpf1
                (fun q hq => hnn q (List.mem_cons_of_mem _ hq))

/-! ### The claims -/

/-- The store of the spec's bulk-write scenario: "b" is write-denied by an
explicit override "r". -/
def sBDeny : Store := .mk .nil [("b", Perm.r)] .rw .nil

/-- A store whose statically declared field "x" holds the scalar `null`
(readable under the default ReadWrite policy). -/
def sNull : Store := .mk .nil [] .rw (.cons "x" (.prim .null) .nil)

/-- C1: evaluating the code at the claim's own example: after
`write("a", {b: 1, c: 2})` on an empty ReadWrite store, the write succeeds
and `read("a")` returns a nested store — but that store contains only the
last pair `c ↦ 2`, because the structured-write loop creates and binds a
fresh store per key/value pair, each binding overwriting the previous one.
Reading "b" through the container falls back to its merged view instead of
returning 1, while "c" does read back 2. The claim (and the intent evident
in the code's own comment) says the container holds all pairs; the code
loses every pair but the last. -/
theorem c1_structured_write_keeps_only_last_pair :
    (emptyStore.write "a" (.obj (.cons "b" (.prim (.int 1))
        (.cons "c" (.prim (.int 2)) .nil)))).2 = Option.none ∧
    (emptyStore.write "a" (.obj (.cons "b" (.prim (.int 1))
        (.cons "c" (.prim (.int 2)) .nil)))).1.read "a" =
      .ok (.store (.mk (.cons "c" (.prim (.int 2)) .nil) [] .rw .nil)) ∧
    (Store.mk (.cons "c" (.prim (.int 2)) .nil) [] .rw .nil).read "c" =
      .ok (.prim (.int 2)) ∧
    (Store.mk (.cons "c" (.prim (.int 2)) .nil) [] .rw .nil).read "b" ≠
      .ok (.prim (.int 1)) := by
  refine ⟨?_, ?_, ?_, ?_⟩ <;>
    simp [Store.read, Store.write, Store.allowedToRead, Store.allowedToWrite,
    Store.getPermissions, Store.storeGet, Store.getPropertyByPath,
    Store.mvLookup, Store.gpFallback, Store.mergedView, Store.ownProps,
    Store.entriesView, Store.setPropertyByPath, Store.setLocal, forEachPairs,
    Store.writeEntries, Store.entries, Store.entriesFilter, Store.setData,
    Store.updateField, Store.delegated, Fields.lookup, Fields.insert,
    Fields.spread, Fields.updateVal, plookup, permsToFields, splitColon,
    splitColonAux, headKey, currentKeyOf, restPath, reduceKeys, jsGet, truthy,
    correctType, Perm.toStr, Perm.includesR, Perm.includesW, emptyStore,
    Store.data, Store.perms, Store.defaultPolicy, Store.fields]

/-- C2, counterexample: the falsy scalar `false` does not round-trip. The
write succeeds and stores `false` in `_data`, but `read("k")` returns the
merged view object instead of `false`, because the final reduce of
`_getPropertyByPath` treats the falsy stored value as missing and falls back
to the container view. -/
theorem c2_false_roundtrip_fails :
    (emptyStore.write "k" (.prim (.bool false))).2 = Option.none ∧
    (emptyStore.write "k" (.prim (.bool false))).1.data.lookup "k" =
      some (.prim (.bool false)) ∧
    (emptyStore.write "k" (.prim (.bool false))).1.read "k" ≠
      .ok (.prim (.bool false)) := by
  refine ⟨?_, ?_, ?_⟩ <;>
    simp [Store.read, Store.write, Store.allowedToRead, Store.allowedToWrite,
    Store.getPermissions, Store.storeGet, Store.getPropertyByPath,
    Store.mvLookup, Store.gpFallback, Store.mergedView, Store.ownProps,
    Store.entriesView, Store.setPropertyByPath, Store.setLocal, forEachPairs,
    Store.writeEntries, Store.entries, Store.entriesFilter, Store.setData,
    Store.updateField, Store.delegated, Fields.lookup, Fields.insert,
    Fields.spread, Fields.updateVal, plookup, permsToFields, splitColon,
    splitColonAux, headKey, currentKeyOf, restPath, reduceKeys, jsGet, truthy,
    correctType, Perm.toStr, Perm.includesR, Perm.includesW, emptyStore,
    Store.data, Store.perms, Store.defaultPolicy, Store.fields]

/-- C2, amended: on a store with defaultPolicy ReadWrite, `write("k", v)`
followed by `read("k")` returns `v` for every JS-truthy scalar `v` (a
non-empty string, a non-zero number, or `true`). Falsy scalars are excluded:
`0`, `""` and `false` are stored but read back as the merged container view,
and writing `null` throws a TypeError before storing anything. -/
theorem c2_truthy_scalar_roundtrip (p : Prim) (hp : truthy (.prim p) = true) :
    (emptyStore.write "k" (.prim p)).2 = Option.none ∧
    (emptyStore.write "k" (.prim p)).1.read "k" = .ok (.prim p) := by
  cases p with
  | null => simp [truthy] at hp
  | str a =>
      rw [truthy] at hp
      split at hp
      · cases hp
      · rename_i h
        refine ⟨?_, ?_⟩ <;>
          simp [Store.read, Store.write, Store.allowedToRead, Store.allowedToWrite,
    Store.getPermissions, Store.storeGet, Store.getPropertyByPath,
    Store.mvLookup, Store.gpFallback, Store.mergedView, Store.ownProps,
    Store.entriesView, Store.setPropertyByPath, Store.setLocal, forEachPairs,
    Store.writeEntries, Store.entries, Store.entriesFilter, Store.setData,
    Store.updateField, Store.delegated, Fields.lookup, Fields.insert,
    Fields.spread, Fields.updateVal, plookup, permsToFields, splitColon,
    splitColonAux, headKey, currentKeyOf, restPath, reduceKeys, jsGet, truthy,
    correctType, Perm.toStr, Perm.includesR, Perm.includesW, emptyStore,
    Store.data, Store.perms, Store.defaultPolicy, Store.fields, h]
  | int n =>
      rw [truthy] at hp
      split at hp
      · cases hp
      · rename_i h
        refine ⟨?_, ?_⟩ <;>
          simp [Store.read, Store.write, Store.allowedToRead, Store.allowedToWrite,
    Store.getPermissions, Store.storeGet, Store.getPropertyByPath,
    Store.mvLookup, Store.gpFallback, Store.mergedView, Store.ownProps,
    Store.entriesView, Store.setPropertyByPath, Store.setLocal, forEachPairs,
    Store.writeEntries, Store.entries, Store.entriesFilter, Store.setData,
    Store.updateField, Store.delegated, Fields.lookup, Fields.insert,
    Fields.spread, Fields.updateVal, plookup, permsToFields, splitColon,
    splitColonAux, headKey, currentKeyOf, restPath, reduceKeys, jsGet, truthy,
    correctType, Perm.toStr, Perm.includesR, Perm.includesW, emptyStore,
    Store.data, Store.perms, Store.defaultPolicy, Store.fields, h]
  | bool b =>
      cases b
      · simp [truthy] at hp
      · refine ⟨?_, ?_⟩ <;>
          simp [Store.read, Store.write, Store.allowedToRead, Store.allowedToWrite,
    Store.getPermissions, Store.storeGet, Store.getPropertyByPath,
    Store.mvLookup, Store.gpFallback, Store.mergedView, Store.ownProps,
    Store.entriesView, Store.setPropertyByPath, Store.setLocal, forEachPairs,
    Store.writeEntries, Store.entries, Store.entriesFilter, Store.setData,
    Store.updateField, Store.delegated, Fields.lookup, Fields.insert,
    Fields.spread, Fields.updateVal, plookup, permsToFields, splitColon,
    splitColonAux, headKey, currentKeyOf, restPath, reduceKeys, jsGet, truthy,
    correctType, Perm.toStr, Perm.includesR, Perm.includesW, emptyStore,
    Store.data, Store.perms, Store.defaultPolicy, Store.fields]

/-- C2 witness: the truthy scalar 7 round-trips. -/
theorem c2_truthy_scalar_roundtrip_witness :
    truthy (.prim (.int 7)) = true ∧
    (emptyStore.write "k" (.prim (.int 7))).1.read "k" = .ok (.prim (.int 7)) :=
  ⟨by decide, (c2_truthy_scalar_roundtrip (.int 7) (by decide)).2⟩

/-- C3, counterexample: `write("k", null)` on an empty ReadWrite store is
permitted by the permission check, yet throws — and the error is a TypeError
(`Object.entries(null)`, reached because `typeof null` is "object"), not
AccessDenied. So an error can be raised even though the resolved permission
grants the required capability, and an error kind other than AccessDenied
exists. -/
theorem c3_null_write_type_error :
    emptyStore.allowedToWrite "k" = .ok true ∧
    (emptyStore.write "k" (.prim .null)).2 = some Err.typeError := by
  refine ⟨?_, ?_⟩ <;>
    simp [Store.read, Store.write, Store.allowedToRead, Store.allowedToWrite,
    Store.getPermissions, Store.storeGet, Store.getPropertyByPath,
    Store.mvLookup, Store.gpFallback, Store.mergedView, Store.ownProps,
    Store.entriesView, Store.setPropertyByPath, Store.setLocal, forEachPairs,
    Store.writeEntries, Store.entries, Store.entriesFilter, Store.setData,
    Store.updateField, Store.delegated, Fields.lookup, Fields.insert,
    Fields.spread, Fields.updateVal, plookup, permsToFields, splitColon,
    splitColonAux, headKey, currentKeyOf, restPath, reduceKeys, jsGet, truthy,
    correctType, Perm.toStr, Perm.includesR, Perm.includesW, emptyStore,
    Store.data, Store.perms, Store.defaultPolicy, Store.fields]

/-- C3, amended: on stores whose statically declared fields contain no
producers (transitively), and for written values containing no `null`,
`read`/`write` raise an error exactly when the resolved permission lacks the
required capability, and that error is AccessDenied; there is no
key-not-found error (`read`/`write` of any unresolved path succeed under the
default ReadWrite policy, which these equivalences imply); `writeEntries`
transitively raises nothing but AccessDenied. Producers whose result is not
a nested store make permission resolution itself throw a TypeError, and a
`null` anywhere in a written value makes the write throw a TypeError, which
is why both are excluded. -/
theorem c3_access_denied_iff (s : Store) (p : String) (v : SValue)
    (es : List (String × SValue)) (hpf : s.producerFree = true)
    (hv : v.noNull = true) (hes : ∀ q ∈ es, (q.2).noNull = true) :
    ((s.write p v).2 = some Err.accessDenied ↔ s.allowedToWrite p = .ok false) ∧
    ((s.write p v).2 = Option.none ↔ s.allowedToWrite p = .ok true) ∧
    ((∃ e, s.read p = .error e) ↔ s.allowedToRead p = .ok false) ∧
    (∀ e, s.read p = .error e → e = Err.accessDenied) ∧
    ((s.writeEntries es).2 = Option.none ∨
      (s.writeEntries es).2 = some Err.accessDenied) := by
  obtain ⟨q, hq⟩ := gp_total s p hpf
  have haw : s.allowedToWrite p = .ok q.includesW := by
    simp only [Store.allowedToWrite, hq]
  have har : s.allowedToRead p = .ok q.includesR := by
    simp only [Store.allowedToRead, hq]
  refine ⟨?_, ?_, ?_, ?_, writeEntries_errs es s hpf hes⟩
  · rw [haw]
    simp only [Store.write, haw]
    cases hw : q.includesW
    · simp
    · have := (set_props s p v).2.2 hv
      rw [this]
      simp
  · rw [haw]
    simp only [Store.write, haw]
    cases hw : q.includesW
    · simp
    · have := (set_props s p v).2.2 hv
      rw [this]
      simp
  · rw [har]
    simp only [Store.read, har]
    cases hr : q.includesR
    · simp
    · simp
  · intro e he
    simp only [Store.read, har] at he
    cases hr : q.includesR
    · rw [hr] at he
      simp at he
      exact he.symm
    · rw [hr] at he
      cases he

/-- C3 witness: a concrete bulk write through the amended theorem. -/
theorem c3_access_denied_iff_witness :
    (emptyStore.writeEntries [("a", .prim (.int 2))]).2 = Option.none ∨
    (emptyStore.writeEntries [("a", .prim (.int 2))]).2 =
      some Err.accessDenied :=
  (c3_access_denied_iff emptyStore "k" (.prim (.int 1))
    [("a", .prim (.int 2))] (by decide) (by decide)
    (by intro x hx
        simp at hx
        rw [hx]
        decide)).2.2.2.2

/-- C4, counterexample: `read("nope")` on an empty ReadWrite store returns
the spread object `{...this, ...this._data}` — a plain-object copy of the
store's own properties — not the store instance itself. -/
theorem c4_read_missing_returns_view_not_store :
    emptyStore.read "nope" = .ok (.obj (.cons "_data" (.obj .nil)
      (.cons "_permissions" (.obj .nil)
        (.cons "defaultPolicy" (.prim (.str "rw")) .nil)))) ∧
    emptyStore.read "nope" ≠ .ok (.store emptyStore) := by
  refine ⟨?_, ?_⟩ <;>
    simp [Store.read, Store.write, Store.allowedToRead, Store.allowedToWrite,
    Store.getPermissions, Store.storeGet, Store.getPropertyByPath,
    Store.mvLookup, Store.gpFallback, Store.mergedView, Store.ownProps,
    Store.entriesView, Store.setPropertyByPath, Store.setLocal, forEachPairs,
    Store.writeEntries, Store.entries, Store.entriesFilter, Store.setData,
    Store.updateField, Store.delegated, Fields.lookup, Fields.insert,
    Fields.spread, Fields.updateVal, plookup, permsToFields, splitColon,
    splitColonAux, headKey, currentKeyOf, restPath, reduceKeys, jsGet, truthy,
    correctType, Perm.toStr, Perm.includesR, Perm.includesW, emptyStore,
    Store.data, Store.perms, Store.defaultPolicy, Store.fields]

/-- C4, amended: `read("nope")` on an empty ReadWrite store returns the
merged plain-object view (a present, non-absent value, but a copy rather
than the store instance); and in general, during the final reduce of
path-addressed read, every segment that is missing or falsy in the current
accumulator is skipped, the walk keeping the previous accumulator. -/
theorem c4_missing_key_fallback (acc : SValue) (k : String) (ks : List String)
    (h : match jsGet acc k with
         | some w => truthy w = false
         | Option.none => True) :
    reduceKeys acc (k :: ks) = reduceKeys acc ks ∧
    emptyStore.read "nope" = .ok (.obj emptyStore.mergedView) := by
  constructor
  · rw [reduceKeys]
    cases hj : jsGet acc k with
    | none => rfl
    | some w =>
        rw [hj] at h
        simp only [hj]
        rw [if_neg (by rw [h]; exact fun hh => Bool.noConfusion hh)]
  · simp [Store.read, Store.write, Store.allowedToRead, Store.allowedToWrite,
    Store.getPermissions, Store.storeGet, Store.getPropertyByPath,
    Store.mvLookup, Store.gpFallback, Store.mergedView, Store.ownProps,
    Store.entriesView, Store.setPropertyByPath, Store.setLocal, forEachPairs,
    Store.writeEntries, Store.entries, Store.entriesFilter, Store.setData,
    Store.updateField, Store.delegated, Fields.lookup, Fields.insert,
    Fields.spread, Fields.updateVal, plookup, permsToFields, splitColon,
    splitColonAux, headKey, currentKeyOf, restPath, reduceKeys, jsGet, truthy,
    correctType, Perm.toStr, Perm.includesR, Perm.includesW, emptyStore,
    Store.data, Store.perms, Store.defaultPolicy, Store.fields]

/-- C4 witness: an absent segment is skipped by the reduce. -/
theorem c4_missing_key_fallback_witness :
    reduceKeys (.obj .nil) ["x"] = reduceKeys (.obj .nil) [] ∧
    emptyStore.read "nope" = .ok (.obj emptyStore.mergedView) :=
  c4_missing_key_fallback (.obj .nil) "x" [] (by simp [jsGet, Fields.lookup])

/-- C5, counterexample: a key with an explicit override `None` whose
instance-property lookup yields a statically declared nested store is not
gated by the override at all: permission resolution recurses into the child
(whose default policy is ReadWrite), so both the write and the read succeed
even though the claim requires AccessDenied for both. -/
theorem c5_static_field_override_bypassed :
    ((Store.mk .nil [("k", Perm.none)] .rw
        (.cons "k" (.store emptyStore) .nil)).write "k" (.prim (.int 1))).2 =
      Option.none ∧
    (Store.mk .nil [("k", Perm.none)] .rw
        (.cons "k" (.store emptyStore) .nil)).read "k" =
      .ok (.store emptyStore) := by
  refine ⟨?_, ?_⟩ <;>
    simp [Store.read, Store.write, Store.allowedToRead, Store.allowedToWrite,
    Store.getPermissions, Store.storeGet, Store.getPropertyByPath,
    Store.mvLookup, Store.gpFallback, Store.mergedView, Store.ownProps,
    Store.entriesView, Store.setPropertyByPath, Store.setLocal, forEachPairs,
    Store.writeEntries, Store.entries, Store.entriesFilter, Store.setData,
    Store.updateField, Store.delegated, Fields.lookup, Fields.insert,
    Fields.spread, Fields.updateVal, plookup, permsToFields, splitColon,
    splitColonAux, headKey, currentKeyOf, restPath, reduceKeys, jsGet, truthy,
    correctType, Perm.toStr, Perm.includesR, Perm.includesW, emptyStore,
    Store.data, Store.perms, Store.defaultPolicy, Store.fields]

/-- C5, amended: for a colon-free, non-empty key whose instance-property
lookup on the store yields neither a nested store nor a producer (in
particular for any key that is not a statically declared sub-store/producer
field), an explicit override gates exactly as claimed: override None or Read
makes `write` fail with AccessDenied leaving the store unchanged, and
override None or Write makes `read` fail with AccessDenied. -/
theorem c5_override_gates_when_not_field (s : Store) (k : String) (v : SValue)
    (q : Perm) (hsplit : splitColon k = [k]) (hne : k ≠ "")
    (hnostore : ∀ c : Store, s.storeGet k ≠ some (.store c))
    (hnoprod : ∀ r : SValue, s.storeGet k ≠ some (.producer r))
    (hq : plookup s.perms k = some q) :
    ((q = Perm.none ∨ q = Perm.r) →
      (s.write k v).2 = some Err.accessDenied ∧ (s.write k v).1 = s) ∧
    ((q = Perm.none ∨ q = Perm.w) → s.read k = .error Err.accessDenied) := by
  have hhead : headKey k = k := by rw [headKey, hsplit]; rfl
  have hck : currentKeyOf k = k := by rw [currentKeyOf, hhead, if_neg hne]
  have hgp : s.getPermissions k = .ok q := by
    rw [gpm_eq_default s k (fun c hh => hnostore c (by rw [← hck]; exact hh))
      (fun r hh => hnoprod r (by rw [← hck]; exact hh)), hck, hq]
    rfl
  have haw : s.allowedToWrite k = .ok q.includesW := by
    simp only [Store.allowedToWrite, hgp]
  have har : s.allowedToRead k = .ok q.includesR := by
    simp only [Store.allowedToRead, hgp]
  constructor
  · intro hcase
    have hw : q.includesW = false := by
      cases hcase with
      | inl h1 => rw [h1]; rfl
      | inr h1 => rw [h1]; rfl
    simp only [Store.write, haw, hw]
    exact ⟨trivial, trivial⟩
  · intro hcase
    have hr : q.includesR = false := by
      cases hcase with
      | inl h1 => rw [h1]; rfl
      | inr h1 => rw [h1]; rfl
    simp only [Store.read, har, hr]

/-- C5 witness: override "r" on a plain key denies the write and leaves the
store unchanged. -/
theorem c5_override_gates_when_not_field_witness :
    ((Store.mk .nil [("k", Perm.r)] .rw .nil).write "k" (.prim (.int 5))).2 =
      some Err.accessDenied ∧
    ((Store.mk .nil [("k", Perm.r)] .rw .nil).write "k" (.prim (.int 5))).1 =
      Store.mk .nil [("k", Perm.r)] .rw .nil :=
  (c5_override_gates_when_not_field
    (Store.mk .nil [("k", Perm.r)] .rw .nil) "k" (.prim (.int 5)) Perm.r
    (by decide) (by decide)
    (by intro c hc
        simp [Store.storeGet, Fields.lookup, Store.fields, Store.data,
          Store.perms, Store.defaultPolicy, permsToFields, Perm.toStr] at hc)
    (by intro r hr
        simp [Store.storeGet, Fields.lookup, Store.fields, Store.data,
          Store.perms, Store.defaultPolicy, permsToFields, Perm.toStr] at hr)
    (by decide)).1 (Or.inr rfl)

/-- C6: `writeEntries` applies `write` once per pair in encounter order with
no atomicity: a denied (or otherwise failing) individual write makes the
call stop right there with the state reached so far, and a successful one
continues on the updated state. On the spec's concrete scenario — override
"r" on "b", bulk `{a: 1, b: 2}` — the call throws AccessDenied, `read("a")`
afterwards returns 1 (committed), and "b" was never written. -/
theorem c6_writeEntries_in_order_non_atomic :
    (∀ (s s1 : Store) (k : String) (v : SValue) (e : Err)
        (rest : List (String × SValue)),
      s.write k v = (s1, some e) →
      s.writeEntries ((k, v) :: rest) = (s1, some e)) ∧
    (∀ (s s1 : Store) (k : String) (v : SValue)
        (rest : List (String × SValue)),
      s.write k v = (s1, Option.none) →
      s.writeEntries ((k, v) :: rest) = s1.writeEntries rest) ∧
    ((sBDeny.writeEntries
        [("a", .prim (.int 1)), ("b", .prim (.int 2))]).2 =
      some Err.accessDenied ∧
     (sBDeny.writeEntries
        [("a", .prim (.int 1)), ("b", .prim (.int 2))]).1.read "a" =
      .ok (.prim (.int 1)) ∧
     (sBDeny.writeEntries
        [("a", .prim (.int 1)), ("b", .prim (.int 2))]).1.data.lookup "b" =
      Option.none) := by
  refine ⟨?_, ?_, ?_, ?_, ?_⟩
  · intro s s1 k v e rest hw
    simp only [Store.writeEntries, hw]
  · intro s s1 k v rest hw
    simp only [Store.writeEntries, hw]
  all_goals
    simp [Store.read, Store.write, Store.allowedToRead, Store.allowedToWrite,
    Store.getPermissions, Store.storeGet, Store.getPropertyByPath,
    Store.mvLookup, Store.gpFallback, Store.mergedView, Store.ownProps,
    Store.entriesView, Store.setPropertyByPath, Store.setLocal, forEachPairs,
    Store.writeEntries, Store.entries, Store.entriesFilter, Store.setData,
    Store.updateField, Store.delegated, Fields.lookup, Fields.insert,
    Fields.spread, Fields.updateVal, plookup, permsToFields, splitColon,
    splitColonAux, headKey, currentKeyOf, restPath, reduceKeys, jsGet, truthy,
    correctType, Perm.toStr, Perm.includesR, Perm.includesW, emptyStore,
    Store.data, Store.perms, Store.defaultPolicy, Store.fields, sBDeny, sNull]

/-- C6 witness: a failing first write aborts the batch with the pre-batch
state for the remaining keys (here the TypeError of a null write). -/
theorem c6_writeEntries_in_order_non_atomic_witness :
    emptyStore.writeEntries [("b", .prim .null), ("c", .prim (.int 1))] =
      (emptyStore, some Err.typeError) :=
  c6_writeEntries_in_order_non_atomic.1 emptyStore emptyStore "b" (.prim .null)
    Err.typeError [("c", .prim (.int 1))]
    (by simp [Store.read, Store.write, Store.allowedToRead, Store.allowedToWrite,
    Store.getPermissions, Store.storeGet, Store.getPropertyByPath,
    Store.mvLookup, Store.gpFallback, Store.mergedView, Store.ownProps,
    Store.entriesView, Store.setPropertyByPath, Store.setLocal, forEachPairs,
    Store.writeEntries, Store.entries, Store.entriesFilter, Store.setData,
    Store.updateField, Store.delegated, Fields.lookup, Fields.insert,
    Fields.spread, Fields.updateVal, plookup, permsToFields, splitColon,
    splitColonAux, headKey, currentKeyOf, restPath, reduceKeys, jsGet, truthy,
    correctType, Perm.toStr, Perm.includesR, Perm.includesW, emptyStore,
    Store.data, Store.perms, Store.defaultPolicy, Store.fields, sBDeny, sNull])

/-- C7: permission resolution consults only the store's statically declared
fields (and base-class instance properties) for the first segment — never
the locally written entry map. Whenever instance-property access on the
first segment yields nothing (in particular when a dynamically created
nested store sits at that key in `_data`, since `s` and so `s.data` are
universally quantified here), the resolved permission is the store's own
override for that segment, or `defaultPolicy` when none is set, with no
delegation into any nested store's permission map. -/
theorem c7_permission_ignores_dynamic_entries (s : Store) (p : String)
    (k : String) (hk : headKey p = k) (hne : k ≠ "")
    (hnofield : s.storeGet k = Option.none) :
    s.getPermissions p = .ok ((plookup s.perms k).getD s.defaultPolicy) := by
  have hck : currentKeyOf p = k := by rw [currentKeyOf, hk, if_neg hne]
  have h1 : ∀ c : Store, s.storeGet (currentKeyOf p) ≠ some (.store c) := by
    rw [hck, hnofield]
    intro c hc
    cases hc
  have h2 : ∀ r : SValue, s.storeGet (currentKeyOf p) ≠ some (.producer r) := by
    rw [hck, hnofield]
    intro r hr
    cases hr
  rw [gpm_eq_default s p h1 h2, hck]

/-- C7 witness: a dynamically written nested store at "x" (itself carrying a
None default policy and a None override for "y") does not participate in
resolving "x:y"; the parent's override "r" for "x" wins. -/
theorem c7_permission_ignores_dynamic_entries_witness :
    (Store.mk
        (.cons "x" (.store (.mk .nil [("y", Perm.none)] Perm.none .nil)) .nil)
        [("x", Perm.r)] .rw .nil).getPermissions "x:y" = .ok Perm.r :=
  (c7_permission_ignores_dynamic_entries
    (Store.mk
        (.cons "x" (.store (.mk .nil [("y", Perm.none)] Perm.none .nil)) .nil)
        [("x", Perm.r)] .rw .nil) "x:y" "x"
    (by decide) (by decide) (by decide)).trans (by rfl)

/-- C8, counterexample: a readable key whose value is the scalar `null` does
not appear in the snapshot: `_correctType` rejects `null` because
`typeof null` is "object". Here `allowedToRead "x"` holds and `null` is a
scalar in the claim's sense, yet `entries()` returns only `defaultPolicy`. -/
theorem c8_null_scalar_excluded :
    sNull.allowedToRead "x" = .ok true ∧
    sNull.entries = .ok (.cons "defaultPolicy" (.prim (.str "rw")) .nil) := by
  refine ⟨?_, ?_⟩ <;>
    simp [Store.read, Store.write, Store.allowedToRead, Store.allowedToWrite,
    Store.getPermissions, Store.storeGet, Store.getPropertyByPath,
    Store.mvLookup, Store.gpFallback, Store.mergedView, Store.ownProps,
    Store.entriesView, Store.setPropertyByPath, Store.setLocal, forEachPairs,
    Store.writeEntries, Store.entries, Store.entriesFilter, Store.setData,
    Store.updateField, Store.delegated, Fields.lookup, Fields.insert,
    Fields.spread, Fields.updateVal, plookup, permsToFields, splitColon,
    splitColonAux, headKey, currentKeyOf, restPath, reduceKeys, jsGet, truthy,
    correctType, Perm.toStr, Perm.includesR, Perm.includesW, emptyStore,
    Store.data, Store.perms, Store.defaultPolicy, Store.fields, sBDeny, sNull]

/-- C8, amended: the snapshot is exact. Soundness: every binding surfaced by
`entries()` is readable and is a non-null scalar (a string, number or
boolean: `correctType`), so nested stores, producers, arrays, `undefined` —
and also `null` — never appear. Completeness: on any store that is the image
of a JS object (its entry map has no duplicate keys), every key of the
merged view (own fields spread after local entries) that is readable and
bound to a non-null scalar appears in the snapshot with that value. And on
the spec's own scenario, after `write("x", 5)` and `write("y", {z: 1})` the
snapshot contains `x ↦ 5` (plus the instance field `defaultPolicy`) but not
`y`. -/
theorem c8_entries_exact :
    (∀ (s : Store) (es : Fields) (k : String) (v : SValue),
      s.entries = .ok es → es.lookup k = some v →
      s.allowedToRead k = .ok true ∧ correctType v = true) ∧
    (∀ (s : Store) (es : Fields) (k : String) (v : SValue),
      s.data.keysNodup = true → s.entries = .ok es →
      s.entriesView.lookup k = some v → s.allowedToRead k = .ok true →
      correctType v = true → es.lookup k = some v) ∧
    (((emptyStore.write "x" (.prim (.int 5))).1.write "y"
        (.obj (.cons "z" (.prim (.int 1)) .nil))).1.entries =
      .ok (.cons "x" (.prim (.int 5))
        (.cons "defaultPolicy" (.prim (.str "rw")) .nil))) := by
  refine ⟨?_, ?_, ?_⟩
  · intro s es k v hent hlk
    simp only [Store.entries] at hent
    cases hf : s.entriesFilter s.entriesView with
    | error e => rw [hf] at hent; cases hent
    | ok kept =>
        rw [hf] at hent
        cases hent
        rw [spread_lookup] at hlk
        cases hll : kept.lookupLast k with
        | none => rw [hll] at hlk; cases hlk
        | some w =>
            rw [hll] at hlk
            cases hlk
            exact filter_pairMem_sound s s.entriesView kept k v hf
              (lookupLast_pairMem kept k v hll)
  · intro s es k v hnd hent hview har hct
    simp only [Store.entries] at hent
    cases hf : s.entriesFilter s.entriesView with
    | error e => rw [hf] at hent; cases hent
    | ok kept =>
        rw [hf] at hent
        cases hent
        have hvnd : s.entriesView.keysNodup = true :=
          spread_nodup s.ownProps s.data hnd
        have hkept : kept.lookup k = some v :=
          filter_ok_lookup s s.entriesView kept k v hf hview har hct
        have hknd : kept.keysNodup = true :=
          filter_nodup s s.entriesView kept hf hvnd
        rw [spread_lookup, lookupLast_eq_lookup_of_nodup kept _ hknd, hkept]
  · simp [Store.read, Store.write, Store.allowedToRead, Store.allowedToWrite,
    Store.getPermissions, Store.storeGet, Store.getPropertyByPath,
    Store.mvLookup, Store.gpFallback, Store.mergedView, Store.ownProps,
    Store.entriesView, Store.setPropertyByPath, Store.setLocal, forEachPairs,
    Store.writeEntries, Store.entries, Store.entriesFilter, Store.setData,
    Store.updateField, Store.delegated, Fields.lookup, Fields.insert,
    Fields.spread, Fields.updateVal, plookup, permsToFields, splitColon,
    splitColonAux, headKey, currentKeyOf, restPath, reduceKeys, jsGet, truthy,
    correctType, Perm.toStr, Perm.includesR, Perm.includesW, emptyStore,
    Store.data, Store.perms, Store.defaultPolicy, Store.fields, sBDeny, sNull]

/-- C8 witness: both directions applied to the empty store's snapshot at its
only key. -/
theorem c8_entries_exact_witness :
    (emptyStore.allowedToRead "defaultPolicy" = .ok true ∧
      correctType (.prim (.str "rw")) = true) ∧
    (Fields.cons "defaultPolicy" (.prim (.str "rw")) .nil).lookup
      "defaultPolicy" = some (.prim (.str "rw")) :=
  ⟨c8_entries_exact.1 emptyStore
      (.cons "defaultPolicy" (.prim (.str "rw")) .nil)
      "defaultPolicy" (.prim (.str "rw"))
      (by simp [Store.read, Store.write, Store.allowedToRead, Store.allowedToWrite,
    Store.getPermissions, Store.storeGet, Store.getPropertyByPath,
    Store.mvLookup, Store.gpFallback, Store.mergedView, Store.ownProps,
    Store.entriesView, Store.setPropertyByPath, Store.setLocal, forEachPairs,
    Store.writeEntries, Store.entries, Store.entriesFilter, Store.setData,
    Store.updateField, Store.delegated, Fields.lookup, Fields.insert,
    Fields.spread, Fields.updateVal, plookup, permsToFields, splitColon,
    splitColonAux, headKey, currentKeyOf, restPath, reduceKeys, jsGet, truthy,
    correctType, Perm.toStr, Perm.includesR, Perm.includesW, emptyStore,
    Store.data, Store.perms, Store.defaultPolicy, Store.fields, sBDeny, sNull]) (by decide),
   c8_entries_exact.2.1 emptyStore
      (.cons "defaultPolicy" (.prim (.str "rw")) .nil)
      "defaultPolicy" (.prim (.str "rw"))
      (by decide)
      (by simp [Store.read, Store.write, Store.allowedToRead, Store.allowedToWrite,
    Store.getPermissions, Store.storeGet, Store.getPropertyByPath,
    Store.mvLookup, Store.gpFallback, Store.mergedView, Store.ownProps,
    Store.entriesView, Store.setPropertyByPath, Store.setLocal, forEachPairs,
    Store.writeEntries, Store.entries, Store.entriesFilter, Store.setData,
    Store.updateField, Store.delegated, Fields.lookup, Fields.insert,
    Fields.spread, Fields.updateVal, plookup, permsToFields, splitColon,
    splitColonAux, headKey, currentKeyOf, restPath, reduceKeys, jsGet, truthy,
    correctType, Perm.toStr, Perm.includesR, Perm.includesW, emptyStore,
    Store.data, Store.perms, Store.defaultPolicy, Store.fields, sBDeny, sNull])
      (by decide)
      (by simp [Store.read, Store.write, Store.allowedToRead, Store.allowedToWrite,
    Store.getPermissions, Store.storeGet, Store.getPropertyByPath,
    Store.mvLookup, Store.gpFallback, Store.mergedView, Store.ownProps,
    Store.entriesView, Store.setPropertyByPath, Store.setLocal, forEachPairs,
    Store.writeEntries, Store.entries, Store.entriesFilter, Store.setData,
    Store.updateField, Store.delegated, Fields.lookup, Fields.insert,
    Fields.spread, Fields.updateVal, plookup, permsToFields, splitColon,
    splitColonAux, headKey, currentKeyOf, restPath, reduceKeys, jsGet, truthy,
    correctType, Perm.toStr, Perm.includesR, Perm.includesW, emptyStore,
    Store.data, Store.perms, Store.defaultPolicy, Store.fields, sBDeny, sNull])
      (by decide)⟩

theorem ownProps_lookupLast_dp (s : Store)
    (h3 : s.fields.hasKey "defaultPolicy" = false) :
    s.ownProps.lookupLast "defaultPolicy" =
      some (.prim (.str s.defaultPolicy.toStr)) := by
  rw [Store.ownProps, Fields.lookupLast, Fields.lookupLast, Fields.lookupLast,
    lookupLast_of_hasKey_false s.fields "defaultPolicy" h3]
  rfl

/-- C9: whenever `"defaultPolicy"` is readable (as it is under the default
ReadWrite policy with no override for that key) and `entries()` returns,
the snapshot contains the key `"defaultPolicy"` bound to the store's policy
string, even though no such entry was ever written: the snapshot spreads the
instance's own fields after the entry map, so they appear in it and take
precedence over any written entry of the same name (the store's `_data` is
arbitrary here). The two well-formedness hypotheses say the store is the
image of a JS object: its entry map has no duplicate keys and no subclass
field shadows the base-class property `defaultPolicy`. -/
theorem c9_entries_exposes_defaultPolicy (s : Store) (es : Fields)
    (h1 : s.allowedToRead "defaultPolicy" = .ok true)
    (h2 : s.entries = .ok es)
    (h3 : s.fields.hasKey "defaultPolicy" = false)
    (h4 : s.data.keysNodup = true) :
    es.lookup "defaultPolicy" = some (.prim (.str s.defaultPolicy.toStr)) := by
  simp only [Store.entries] at h2
  cases hf : s.entriesFilter s.entriesView with
  | error e => rw [hf] at h2; cases h2
  | ok kept =>
      rw [hf] at h2
      cases h2
      have hview : s.entriesView.lookup "defaultPolicy" =
          some (.prim (.str s.defaultPolicy.toStr)) := by
        rw [Store.entriesView, spread_lookup, ownProps_lookupLast_dp s h3]
      have hvnd : s.entriesView.keysNodup = true :=
        spread_nodup s.ownProps s.data h4
      have hkept : kept.lookup "defaultPolicy" =
          some (.prim (.str s.defaultPolicy.toStr)) :=
        filter_ok_lookup s s.entriesView kept "defaultPolicy" _ hf hview h1 rfl
      have hknd : kept.keysNodup = true := filter_nodup s s.entriesView kept hf hvnd
      rw [spread_lookup, lookupLast_eq_lookup_of_nodup kept _ hknd, hkept]

/-- C9 witness: the empty store's snapshot binds `defaultPolicy` to "rw". -/
theorem c9_entries_exposes_defaultPolicy_witness :
    (Fields.cons "defaultPolicy" (.prim (.str "rw")) .nil).lookup
      "defaultPolicy" = some (.prim (.str emptyStore.defaultPolicy.toStr)) :=
  c9_entries_exposes_defaultPolicy emptyStore
    (.cons "defaultPolicy" (.prim (.str "rw")) .nil)
    (by simp [Store.read, Store.write, Store.allowedToRead, Store.allowedToWrite,
    Store.getPermissions, Store.storeGet, Store.getPropertyByPath,
    Store.mvLookup, Store.gpFallback, Store.mergedView, Store.ownProps,
    Store.entriesView, Store.setPropertyByPath, Store.setLocal, forEachPairs,
    Store.writeEntries, Store.entries, Store.entriesFilter, Store.setData,
    Store.updateField, Store.delegated, Fields.lookup, Fields.insert,
    Fields.spread, Fields.updateVal, plookup, permsToFields, splitColon,
    splitColonAux, headKey, currentKeyOf, restPath, reduceKeys, jsGet, truthy,
    correctType, Perm.toStr, Perm.includesR, Perm.includesW, emptyStore,
    Store.data, Store.perms, Store.defaultPolicy, Store.fields, sBDeny, sNull])
    (by simp [Store.read, Store.write, Store.allowedToRead, Store.allowedToWrite,
    Store.getPermissions, Store.storeGet, Store.getPropertyByPath,
    Store.mvLookup, Store.gpFallback, Store.mergedView, Store.ownProps,
    Store.entriesView, Store.setPropertyByPath, Store.setLocal, forEachPairs,
    Store.writeEntries, Store.entries, Store.entriesFilter, Store.setData,
    Store.updateField, Store.delegated, Fields.lookup, Fields.insert,
    Fields.spread, Fields.updateVal, plookup, permsToFields, splitColon,
    splitColonAux, headKey, currentKeyOf, restPath, reduceKeys, jsGet, truthy,
    correctType, Perm.toStr, Perm.includesR, Perm.includesW, emptyStore,
    Store.data, Store.perms, Store.defaultPolicy, Store.fields, sBDeny, sNull])
    (by decide) (by decide)

/-- C10: a write — and every applied write inside `writeEntries` — leaves
the permission skeleton of the whole store tree unchanged: every permission
override map, every `defaultPolicy`, and the statically declared field
structure (including those of nested field stores, recursively) are exactly
what they were; only `_data` entry maps change. And a write that fails with
AccessDenied leaves the entire store state unchanged. -/
theorem c10_write_preserves_permission_skeleton (s : Store) (path : String)
    (v : SValue) (es : List (String × SValue)) :
    ((s.write path v).1).skel = s.skel ∧
    ((s.write path v).2 = some Err.accessDenied → (s.write path v).1 = s) ∧
    ((s.writeEntries es).1).skel = s.skel := by
  refine ⟨write_skel s path v, ?_, writeEntries_skel es s⟩
  intro hd
  cases haw : s.allowedToWrite path with
  | error e =>
      simp only [Store.write, haw]
  | ok b =>
      cases b with
      | false => simp only [Store.write, haw]
      | true =>
          simp only [Store.write, haw] at hd ⊢
          have := (set_props s path v).2.1 Err.accessDenied hd
          simp at this

/-- C10 witness: a denied write leaves the store untouched. -/
theorem c10_write_preserves_permission_skeleton_witness :
    ((Store.mk .nil [("k", Perm.r)] .rw .nil).write "k" (.prim (.int 5))).1 =
      Store.mk .nil [("k", Perm.r)] .rw .nil :=
  (c10_write_preserves_permission_skeleton
    (Store.mk .nil [("k", Perm.r)] .rw .nil) "k" (.prim (.int 5)) []).2.1
    (by simp [Store.read, Store.write, Store.allowedToRead, Store.allowedToWrite,
    Store.getPermissions, Store.storeGet, Store.getPropertyByPath,
    Store.mvLookup, Store.gpFallback, Store.mergedView, Store.ownProps,
    Store.entriesView, Store.setPropertyByPath, Store.setLocal, forEachPairs,
    Store.writeEntries, Store.entries, Store.entriesFilter, Store.setData,
    Store.updateField, Store.delegated, Fields.lookup, Fields.insert,
    Fields.spread, Fields.updateVal, plookup, permsToFields, splitColon,
    splitColonAux, headKey, currentKeyOf, restPath, reduceKeys, jsGet, truthy,
    correctType, Perm.toStr, Perm.includesR, Perm.includesW, emptyStore,
    Store.data, Store.perms, Store.defaultPolicy, Store.fields, sBDeny, sNull])

end TAStore
